import Mathlib

/-!
Verification of the animation-advance state machine of `bevy_mod_aseprite`
(`src/anim.rs`).

The embedding below is a shallow model of the Rust code:

* `std::time::Duration` is modelled as a `Nat` number of nanoseconds;
  `Duration::from_millis d` becomes `durationFromMillis d = d * 1000000`.
  All `Duration` arithmetic used by the code (`+`, saturated `-` guarded by
  `≤`, comparisons) coincides with `Nat` arithmetic.
* `usize` and `u16` become `Nat`.  The cast `as u16` performed inside the
  range-membership tests of `next_frame` is modelled by `% 65536`; `u16`
  range bounds carry the side condition `frames_end < 65536` where needed.
  `checked_sub 1` is modelled by an explicit `= 0` test, `saturating_sub`
  by truncated `Nat` subtraction.
* Indexing `info.frame_infos[i]` panics in Rust when out of bounds; the
  model makes the duration lookup return `Option` and the timed advance
  surface the panic as `UpdateResult.panicked`.
* The `while` loop of `update` is modelled with explicit fuel; running out
  of fuel is `UpdateResult.fuelOut`.  The fuel supplied by `update` is
  `time_elapsed + dt + 1`, which is proved sufficient whenever every frame
  delay is positive (each loop iteration consumes at least one time unit).
* `%` by `info.frame_count` in the untagged branch of `next_frame` is `Nat`
  `%`, so the model returns the state unchanged where Rust would panic on
  `frame_count = 0`; every statement touching that branch assumes
  `0 < frame_count`.
-/

/-- The playback direction of a tag (`reader::raw::AsepriteAnimationDirection`). -/
inductive AsepriteAnimationDirection where
  | Forward : AsepriteAnimationDirection
  | Reverse : AsepriteAnimationDirection
  | PingPong : AsepriteAnimationDirection
deriving DecidableEq, Repr

/-- Modelled from the spec (§3 TagRange) and the uses in `anim.rs`: the tag
record of the reader crate, with `frames : Range<u16>` flattened into the two
bounds `frames_start`/`frames_end` (half-open `[start, end)`). -/
structure AsepriteTag where
  frames_start : Nat
  frames_end : Nat
  animation_direction : AsepriteAnimationDirection
deriving DecidableEq, Repr

/-- Modelled from the spec (§3 FrameInfo): per-frame metadata; only the
display delay in milliseconds (`delay_ms : u16`) is used by the core. -/
structure FrameInfo where
  delay_ms : Nat
deriving DecidableEq, Repr

/-- Modelled from the spec (§3 ClipInfo) and the uses in `anim.rs`: the
immutable clip description.  The tag table is an association list with the
unique-key discipline of the original hash map. -/
structure AsepriteInfo where
  frame_count : Nat
  frame_infos : List FrameInfo
  tags : List (String × AsepriteTag)
deriving DecidableEq, Repr

/-- `info.tags.get(name)` of the Rust code. -/
def lookupTag (info : AsepriteInfo) (name : String) : Option AsepriteTag :=
  info.tags.lookup name

/-- `Duration::from_millis`, in nanoseconds. -/
def durationFromMillis (ms : Nat) : Nat := ms * 1000000

/-- The mutable playback state `AsepriteAnimation` of `anim.rs`. -/
structure AsepriteAnimation where
  is_playing : Bool
  tag : Option String
  current_frame : Nat
  forward : Bool
  time_elapsed : Nat
  tag_changed : Bool
deriving DecidableEq, Repr

namespace AsepriteAnimation

/-- `Default for AsepriteAnimation`: playing, no tag, frame 0,
`forward = false` (the `bool` default), no elapsed time, `tag_changed = true`. -/
def defaultState : AsepriteAnimation :=
  { is_playing := true, tag := none, current_frame := 0, forward := false
    time_elapsed := 0, tag_changed := true }

/-- `AsepriteAnimation::reset`.  Clears `tag_changed` first; on a missing tag
it logs and returns, leaving every other field unchanged. -/
def reset (info : AsepriteInfo) (s : AsepriteAnimation) : AsepriteAnimation :=
  match s.tag with
  | some name =>
    match lookupTag info name with
    | none => { s with tag_changed := false }
    | some t =>
      match t.animation_direction with
      | .Forward | .PingPong =>
        { s with tag_changed := false, current_frame := t.frames_start, forward := true }
      | .Reverse =>
        { s with tag_changed := false, current_frame := t.frames_end - 1, forward := false }
  | none => { s with tag_changed := false, current_frame := 0, forward := true }

/-- `AsepriteAnimation::next_frame`, the single-step advance.  Each
`range.contains(&(x as u16))` becomes `start ≤ x % 65536 ∧ x % 65536 < end`;
`checked_sub(1)` is the explicit `= 0` test; `saturating_sub(1)` is `Nat`
subtraction. -/
def next_frame (info : AsepriteInfo) (s : AsepriteAnimation) : AsepriteAnimation :=
  match s.tag with
  | some name =>
    match lookupTag info name with
    | none => s
    | some t =>
      match t.animation_direction with
      | .Forward =>
        if t.frames_start ≤ (s.current_frame + 1) % 65536 ∧
            (s.current_frame + 1) % 65536 < t.frames_end then
          { s with current_frame := s.current_frame + 1 }
        else
          { s with current_frame := t.frames_start }
      | .Reverse =>
        if s.current_frame = 0 then
          { s with current_frame := t.frames_end - 1 }
        else
          if t.frames_start ≤ (s.current_frame - 1) % 65536 ∧
              (s.current_frame - 1) % 65536 < t.frames_end then
            { s with current_frame := s.current_frame - 1 }
          else
            { s with current_frame := t.frames_end - 1 }
      | .PingPong =>
        if s.forward then
          if t.frames_start ≤ (s.current_frame + 1) % 65536 ∧
              (s.current_frame + 1) % 65536 < t.frames_end then
            { s with current_frame := s.current_frame + 1 }
          else
            { s with current_frame := s.current_frame + 1 - 1, forward := false }
        else
          { s with
            current_frame :=
              (if s.current_frame ≠ 0 ∧
                  t.frames_start ≤ (s.current_frame - 1) % 65536 ∧
                  (s.current_frame - 1) % 65536 < t.frames_end then
                s.current_frame - 1
              else
                s.current_frame) + 1
            forward := true }
  | none => { s with current_frame := (s.current_frame + 1) % info.frame_count }

/-- `AsepriteAnimation::current_frame_duration`:
`Duration::from_millis(info.frame_infos[current_frame].delay_ms)`.
`none` models the index-out-of-bounds panic. -/
def current_frame_duration (info : AsepriteInfo) (s : AsepriteAnimation) : Option Nat :=
  (info.frame_infos.get? s.current_frame).map (fun f => durationFromMillis f.delay_ms)

/-- `AsepriteAnimation::is_paused`. -/
def is_paused (s : AsepriteAnimation) : Bool := !s.is_playing

/-- `AsepriteAnimation::last_frame_finished`.  Returns `some false` without
touching the frame table when no tag is selected or the tag is unknown
(the Rust code logs and returns `false`); otherwise evaluates
`current_frame == range.end - 1 && time_elapsed + dt >= current_frame_duration`,
surfacing the indexing panic of `current_frame_duration` as `none`. -/
def last_frame_finished (info : AsepriteInfo) (s : AsepriteAnimation) (dt : Nat) :
    Option Bool :=
  match s.tag with
  | none => some false
  | some name =>
    match lookupTag info name with
    | none => some false
    | some t =>
      match current_frame_duration info s with
      | none => none
      | some dur =>
        some (decide (s.current_frame = t.frames_end - 1) &&
              decide (dur ≤ s.time_elapsed + dt))

/-- Outcome of the fuelled drain loop of `update`: a normal return carrying
the final state and the `frame_changed` flag, an indexing panic, or fuel
exhaustion (the Rust loop would still be running). -/
inductive UpdateResult where
  | panicked : UpdateResult
  | fuelOut : UpdateResult
  | ok : AsepriteAnimation → Bool → UpdateResult
deriving DecidableEq, Repr

/-- The `while time_elapsed >= current_frame_duration` loop of
`AsepriteAnimation::update`, with explicit fuel bounding the number of
iterations. -/
def updateLoop (info : AsepriteInfo) (fuel : Nat) (s : AsepriteAnimation)
    (changed : Bool) : UpdateResult :=
  match current_frame_duration info s with
  | none => .panicked
  | some dur =>
    if dur ≤ s.time_elapsed then
      match fuel with
      | 0 => .fuelOut
      | fuel' + 1 =>
        updateLoop info fuel'
          (next_frame info { s with time_elapsed := s.time_elapsed - dur }) true
    else .ok s changed

/-- `AsepriteAnimation::update`: reset-and-report on a pending tag change,
no-op when paused, otherwise accumulate `dt` and drain whole frame durations.
The fuel `time_elapsed + dt + 1` is sufficient whenever every frame delay is
positive. -/
def update (info : AsepriteInfo) (s : AsepriteAnimation) (dt : Nat) : UpdateResult :=
  if s.tag_changed then .ok (reset info s) true
  else if is_paused s then .ok s false
  else
    updateLoop info (s.time_elapsed + dt + 1)
      { s with time_elapsed := s.time_elapsed + dt } false

/-- `next_frame` only ever rewrites `current_frame` and `forward`; every other
field of the state survives the single-step advance unchanged. -/
theorem next_frame_shape (info : AsepriteInfo) (s : AsepriteAnimation) :
    ∃ cf fwd, next_frame info s = { s with current_frame := cf, forward := fwd } := by
  unfold next_frame
  repeat' split
  all_goals exact ⟨_, _, rfl⟩

theorem next_frame_time_elapsed (info : AsepriteInfo) (s : AsepriteAnimation) :
    (next_frame info s).time_elapsed = s.time_elapsed := by
  obtain ⟨cf, fwd, h⟩ := next_frame_shape info s
  rw [h]

theorem next_frame_tag (info : AsepriteInfo) (s : AsepriteAnimation) :
    (next_frame info s).tag = s.tag := by
  obtain ⟨cf, fwd, h⟩ := next_frame_shape info s
  rw [h]

/-- `reset` only ever rewrites `current_frame` and `forward` besides clearing
`tag_changed`. -/
theorem reset_shape (info : AsepriteInfo) (s : AsepriteAnimation) :
    ∃ cf fwd, reset info s =
      { s with current_frame := cf, forward := fwd, tag_changed := false } := by
  unfold reset
  repeat' split
  all_goals exact ⟨_, _, rfl⟩

/-- When the single-step advance fails to resolve the selected tag it leaves
the state untouched (the Rust code logs an error and returns). -/
theorem next_frame_unknown_tag (info : AsepriteInfo) (s : AsepriteAnimation)
    (n : String) (htag : s.tag = some n) (hmiss : lookupTag info n = none) :
    next_frame info s = s := by
  simp only [next_frame, htag, hmiss]

/-- A successful frame-duration lookup bounds `current_frame` by the length of
the frame table. -/
theorem frame_lt_of_duration_some (info : AsepriteInfo) (s : AsepriteAnimation)
    (dur : Nat) (hd : current_frame_duration info s = some dur) :
    s.current_frame < info.frame_infos.length := by
  simp only [current_frame_duration, Option.map_eq_some'] at hd
  obtain ⟨f, hf, -⟩ := hd
  by_contra hlt
  rw [List.get?_eq_none.mpr (Nat.le_of_not_lt hlt)] at hf
  cases hf

/-- The per-iteration frame-duration lookup of the drain loop succeeds on the
final state of any normal return, so that state indexes the frame table. -/
theorem updateLoop_ok_frame_lt (info : AsepriteInfo) :
    ∀ (fuel : Nat) (s : AsepriteAnimation) (c : Bool) (s2 : AsepriteAnimation)
      (c2 : Bool), updateLoop info fuel s c = .ok s2 c2 →
      s2.current_frame < info.frame_infos.length := by
  intro fuel
  induction fuel with
  | zero =>
    intro s c s2 c2 h
    unfold updateLoop at h
    split at h
    · cases h
    · rename_i dur hd
      split at h
      · exact UpdateResult.noConfusion h
      · cases h
        exact frame_lt_of_duration_some info _ dur hd
  | succ fuel ih =>
    intro s c s2 c2 h
    unfold updateLoop at h
    split at h
    · cases h
    · rename_i dur hd
      split at h
      · exact ih _ _ _ _ h
      · cases h
        exact frame_lt_of_duration_some info _ dur hd

/-- Single-step advance stays inside the active tag's half-open range,
provided the range is non-degenerate: for `PingPong` it must hold at least
two frames (`start + 1 < end`), for the other directions `start < end`
follows from membership of the current frame. -/
theorem next_frame_in_range (info : AsepriteInfo) (s : AsepriteAnimation)
    (n : String) (t : AsepriteTag)
    (htag : s.tag = some n) (hlook : lookupTag info n = some t)
    (hu16 : t.frames_end < 65536)
    (hpp : t.animation_direction = .PingPong → t.frames_start + 1 < t.frames_end)
    (hin : t.frames_start ≤ s.current_frame ∧ s.current_frame < t.frames_end) :
    t.frames_start ≤ (next_frame info s).current_frame ∧
      (next_frame info s).current_frame < t.frames_end := by
  obtain ⟨h1, h2⟩ := hin
  cases hdir : t.animation_direction
  case Forward =>
    simp only [next_frame, htag, hlook, hdir]
    by_cases hC : t.frames_start ≤ (s.current_frame + 1) % 65536 ∧
        (s.current_frame + 1) % 65536 < t.frames_end
    · rw [if_pos hC]; dsimp only; omega
    · rw [if_neg hC]; dsimp only; omega
  case Reverse =>
    simp only [next_frame, htag, hlook, hdir]
    by_cases h0 : s.current_frame = 0
    · rw [if_pos h0]; dsimp only; omega
    · rw [if_neg h0]
      by_cases hC : t.frames_start ≤ (s.current_frame - 1) % 65536 ∧
          (s.current_frame - 1) % 65536 < t.frames_end
      · rw [if_pos hC]; dsimp only; omega
      · rw [if_neg hC]; dsimp only; omega
  case PingPong =>
    have hg := hpp hdir
    simp only [next_frame, htag, hlook, hdir]
    by_cases hF : s.forward = true
    · rw [if_pos hF]
      by_cases hC : t.frames_start ≤ (s.current_frame + 1) % 65536 ∧
          (s.current_frame + 1) % 65536 < t.frames_end
      · rw [if_pos hC]; dsimp only; omega
      · rw [if_neg hC]; dsimp only; omega
    · rw [if_neg hF]
      dsimp only
      by_cases hC : s.current_frame ≠ 0 ∧
          t.frames_start ≤ (s.current_frame - 1) % 65536 ∧
          (s.current_frame - 1) % 65536 < t.frames_end
      · rw [if_pos hC]; omega
      · rw [if_neg hC]; omega

/-- The drain loop preserves membership of `current_frame` in the active
tag's range (under the same non-degeneracy conditions as
`next_frame_in_range`). -/
theorem updateLoop_in_range (info : AsepriteInfo) (n : String) (t : AsepriteTag)
    (hlook : lookupTag info n = some t) (hu16 : t.frames_end < 65536)
    (hpp : t.animation_direction = .PingPong → t.frames_start + 1 < t.frames_end) :
    ∀ (fuel : Nat) (s : AsepriteAnimation) (c : Bool) (s2 : AsepriteAnimation)
      (c2 : Bool), s.tag = some n →
      t.frames_start ≤ s.current_frame → s.current_frame < t.frames_end →
      updateLoop info fuel s c = .ok s2 c2 →
      t.frames_start ≤ s2.current_frame ∧ s2.current_frame < t.frames_end := by
  intro fuel
  induction fuel with
  | zero =>
    intro s c s2 c2 htag hl hr h
    unfold updateLoop at h
    split at h
    · cases h
    · split at h
      · exact UpdateResult.noConfusion h
      · cases h; exact ⟨hl, hr⟩
  | succ fuel ih =>
    intro s c s2 c2 htag hl hr h
    unfold updateLoop at h
    split at h
    · cases h
    · rename_i dur hd
      split at h
      · have hstep := next_frame_in_range info
          { s with time_elapsed := s.time_elapsed - dur } n t htag hlook hu16 hpp
          ⟨hl, hr⟩
        have htag2 : (next_frame info
            { s with time_elapsed := s.time_elapsed - dur }).tag = some n := by
          rw [next_frame_tag]; exact htag
        exact ih _ _ _ _ htag2 hstep.1 hstep.2 h
      · cases h; exact ⟨hl, hr⟩

/-- When the selected tag cannot be resolved, the drain loop keeps the frame
fixed and merely reduces the accumulated time modulo the (constant) duration
of the current frame; the reported flag says whether at least one full
duration was drained. -/
theorem updateLoop_unknown_tag (info : AsepriteInfo) (n : String) (f : FrameInfo)
    (hmiss : lookupTag info n = none) (hpos : 0 < f.delay_ms) :
    ∀ (fuel : Nat) (s : AsepriteAnimation) (c : Bool), s.tag = some n →
      info.frame_infos.get? s.current_frame = some f →
      s.time_elapsed < fuel →
      updateLoop info fuel s c =
        .ok { s with time_elapsed := s.time_elapsed % durationFromMillis f.delay_ms }
          (c || decide (durationFromMillis f.delay_ms ≤ s.time_elapsed)) := by
  have hdpos : 0 < durationFromMillis f.delay_ms := by
    simp only [durationFromMillis]; omega
  intro fuel
  induction fuel with
  | zero =>
    intro s c htag hf hlt
    exact absurd hlt (Nat.not_lt_zero _)
  | succ fuel ih =>
    intro s c htag hf hlt
    have hd : current_frame_duration info s = some (durationFromMillis f.delay_ms) := by
      unfold current_frame_duration
      rw [hf]
      rfl
    unfold updateLoop
    rw [hd]
    dsimp only
    by_cases hle : durationFromMillis f.delay_ms ≤ s.time_elapsed
    · rw [if_pos hle]
      show updateLoop info fuel
        (next_frame info
          { s with time_elapsed := s.time_elapsed - durationFromMillis f.delay_ms })
        true = _
      rw [next_frame_unknown_tag info
        { s with time_elapsed := s.time_elapsed - durationFromMillis f.delay_ms }
        n htag hmiss]
      rw [ih { s with time_elapsed := s.time_elapsed - durationFromMillis f.delay_ms }
        true htag hf
        (by show s.time_elapsed - durationFromMillis f.delay_ms < fuel; omega)]
      rw [← Nat.mod_eq_sub_mod hle, Bool.true_or, decide_eq_true hle, Bool.or_true]
    · rw [if_neg hle, Nat.mod_eq_of_lt (Nat.lt_of_not_le hle), decide_eq_false hle,
        Bool.or_false]

/-- When every frame delay of the clip is positive, fuel
`time_elapsed + 1` bounds the drain loop: each iteration removes at least one
time unit from `time_elapsed`. -/
theorem updateLoop_no_fuelOut (info : AsepriteInfo)
    (hpos : ∀ f ∈ info.frame_infos, 0 < f.delay_ms) :
    ∀ (fuel : Nat) (s : AsepriteAnimation) (c : Bool),
      s.time_elapsed < fuel → updateLoop info fuel s c ≠ .fuelOut := by
  intro fuel
  induction fuel with
  | zero =>
    intro s c hlt
    exact absurd hlt (Nat.not_lt_zero _)
  | succ fuel ih =>
    intro s c hlt h
    unfold updateLoop at h
    split at h
    · cases h
    · rename_i dur hd
      split at h
      · rename_i hle
        have hdur : 0 < dur := by
          simp only [current_frame_duration, Option.map_eq_some'] at hd
          obtain ⟨f, hgf, hfd⟩ := hd
          have := hpos f (List.get?_mem hgf)
          simp only [durationFromMillis] at hfd
          omega
        refine ih _ true ?_ h
        rw [next_frame_time_elapsed]
        show s.time_elapsed - dur < fuel
        omega
      · cases h

end AsepriteAnimation

open AsepriteAnimation

/-! Concrete clips and states used to instantiate the claims. -/

/-- A four-frame clip with a single `PingPong` tag spanning `[0, 4)`; all
frame delays are equal (100 ms). -/
def clipPP : AsepriteInfo :=
  { frame_count := 4
    frame_infos := [⟨100⟩, ⟨100⟩, ⟨100⟩, ⟨100⟩]
    tags := [("pp", ⟨0, 4, .PingPong⟩)] }

/-- Playing the `PingPong` tag of `clipPP`, at frame 0, sweeping forward. -/
def sPP : AsepriteAnimation :=
  { is_playing := true, tag := some "pp", current_frame := 0, forward := true
    time_elapsed := 0, tag_changed := false }

/-- The state reached from `sPP` after three single steps: the top boundary
frame, still sweeping forward. -/
def sPPtopF : AsepriteAnimation :=
  { is_playing := true, tag := some "pp", current_frame := 3, forward := true
    time_elapsed := 0, tag_changed := false }

/-- The top boundary frame with the sweep direction flipped to backward. -/
def sPPtopB : AsepriteAnimation :=
  { is_playing := true, tag := some "pp", current_frame := 3, forward := false
    time_elapsed := 0, tag_changed := false }

/-- A five-frame clip whose `Forward` tag spans `[2, 5)`, every frame delay
100 ms. -/
def clipWalk : AsepriteInfo :=
  { frame_count := 5
    frame_infos := [⟨100⟩, ⟨100⟩, ⟨100⟩, ⟨100⟩, ⟨100⟩]
    tags := [("wk", ⟨2, 5, .Forward⟩)] }

/-- Playing the `Forward` tag of `clipWalk` from frame 2 with no accumulated
time. -/
def sWalk : AsepriteAnimation :=
  { is_playing := true, tag := some "wk", current_frame := 2, forward := true
    time_elapsed := 0, tag_changed := false }

/-- A clip with a single-frame `PingPong` tag `[2, 3)`. -/
def clipSingle : AsepriteInfo :=
  { frame_count := 4
    frame_infos := [⟨100⟩, ⟨100⟩, ⟨100⟩, ⟨100⟩]
    tags := [("one", ⟨2, 3, .PingPong⟩)] }

/-- Inside the single-frame tag of `clipSingle`, sweeping backward (the state
produced by one forward step from the tag's entry point). -/
def sSingle : AsepriteAnimation :=
  { is_playing := true, tag := some "one", current_frame := 2, forward := false
    time_elapsed := 0, tag_changed := false }

/-- A one-frame clip whose tag table does not contain `"miss"`. -/
def clipM : AsepriteInfo :=
  { frame_count := 1
    frame_infos := [⟨100⟩]
    tags := [("a", ⟨0, 1, .Forward⟩)] }

/-- A state selecting the unknown tag `"miss"` of `clipM`. -/
def sM : AsepriteAnimation :=
  { is_playing := true, tag := some "miss", current_frame := 0, forward := true
    time_elapsed := 0, tag_changed := false }

/-- A clip with a `Reverse` tag spanning `[2, 5)`. -/
def clipRev : AsepriteInfo :=
  { frame_count := 5
    frame_infos := [⟨100⟩, ⟨100⟩, ⟨100⟩, ⟨100⟩, ⟨100⟩]
    tags := [("rv", ⟨2, 5, .Reverse⟩)] }

/-- Playing the `Reverse` tag of `clipRev` at its entry frame `end - 1 = 4`. -/
def sRev : AsepriteAnimation :=
  { is_playing := true, tag := some "rv", current_frame := 4, forward := false
    time_elapsed := 0, tag_changed := false }

/-- A degenerate untagged one-frame clip whose only frame has delay 0. -/
def clipZero : AsepriteInfo :=
  { frame_count := 1
    frame_infos := [⟨0⟩]
    tags := [] }

/-- An untagged playing state on `clipZero`. -/
def sZero : AsepriteAnimation :=
  { is_playing := true, tag := none, current_frame := 0, forward := true
    time_elapsed := 0, tag_changed := false }

/-- C8: playing the Forward tag `[2,5)` of a clip whose every frame lasts
100 ms, starting at frame 2 with no accumulated time, one timed advance with
`dt = 250 ms` crosses two frame boundaries (2 → 3 → 4), ends on frame 4 with
50 ms of residual time, and reports a frame change. -/
theorem c8_forward_multi_step :
    update clipWalk sWalk 250000000 =
      .ok { is_playing := true, tag := some "wk", current_frame := 4
            forward := true, time_elapsed := 50000000, tag_changed := false }
        true := by
  decide

/-- C1 (counterexample): on the PingPong tag `[0,4)` starting forward at
frame 0, the fourth single-step advance displays frame 3 — not frame 2 as the
claimed sequence 0,1,2,3,2,3,… requires. -/
theorem c1_pingpong_counterexample :
    ((next_frame clipPP)^[4] sPP).current_frame = 3 ∧
    ((next_frame clipPP)^[4] sPP).current_frame ≠ 2 := by
  decide

/-- C1 (amended): the single-step iterates on the PingPong tag `[0,4)` from
frame 0 display 0, 1, 2, 3 and then frame 3 forever: the forward turn clamps
to the top boundary, and every backward step re-accepts frame 2 but
unconditionally steps back up in the same call, so the displayed frame never
leaves the top boundary again (only the `forward` flag keeps alternating). -/
theorem c1_pingpong_sequence :
    ((next_frame clipPP)^[0] sPP).current_frame = 0 ∧
    ((next_frame clipPP)^[1] sPP).current_frame = 1 ∧
    ((next_frame clipPP)^[2] sPP).current_frame = 2 ∧
    ((next_frame clipPP)^[3] sPP).current_frame = 3 ∧
    ∀ k : Nat, ((next_frame clipPP)^[3 + k] sPP).current_frame = 3 := by
  refine ⟨by decide, by decide, by decide, by decide, ?_⟩
  have h3 : (next_frame clipPP)^[3] sPP = sPPtopF := by decide
  have hFB : next_frame clipPP sPPtopF = sPPtopB := by decide
  have hBF : next_frame clipPP sPPtopB = sPPtopF := by decide
  have key : ∀ k : Nat, (next_frame clipPP)^[3 + k] sPP = sPPtopF ∨
      (next_frame clipPP)^[3 + k] sPP = sPPtopB := by
    intro k
    induction k with
    | zero => exact Or.inl h3
    | succ k ih =>
      have hstep : 3 + (k + 1) = (3 + k) + 1 := by omega
      rw [hstep, Function.iterate_succ_apply']
      rcases ih with h | h <;> rw [h]
      · exact Or.inr hFB
      · exact Or.inl hBF
  intro k
  rcases key k with h | h <;> rw [h] <;> rfl

/-- C3 (counterexample): on the single-frame PingPong tag `[2,3)`, from the
in-range state at frame 2 sweeping backward, one single-step advance moves
`current_frame` to 3, outside the tag's range. -/
theorem c3_single_frame_counterexample :
    (2 ≤ sSingle.current_frame ∧ sSingle.current_frame < 3) ∧
    sSingle.tag = some "one" ∧
    lookupTag clipSingle "one" = some ⟨2, 3, .PingPong⟩ ∧
    (next_frame clipSingle sSingle).current_frame = 3 ∧
    ¬ (2 ≤ (next_frame clipSingle sSingle).current_frame ∧
       (next_frame clipSingle sSingle).current_frame < 3) := by
  decide

/-- C4 (counterexample): with the unknown tag `"miss"` selected
(`tag_changed = false`, playing), the timed advance with `dt = 1` does change
`time_elapsed` (from 0 to 1), so the call does not leave the whole state
unchanged. -/
theorem c4_unknown_tag_counterexample :
    lookupTag clipM "miss" = none ∧
    update clipM sM 1 = .ok { sM with time_elapsed := 1 } false ∧
    ({ sM with time_elapsed := 1 } : AsepriteAnimation).time_elapsed ≠
      sM.time_elapsed := by
  decide

/-- C2: for every valid state (frame index in bounds, any selected tag
resolvable with a range containing the current frame and bounded by the
clip), positive frame delays, and any `dt`, whenever the timed advance
returns normally the resulting `current_frame` is a valid index
(`0 ≤ current_frame` holds trivially over `Nat`). -/
theorem c2_update_frame_in_bounds (info : AsepriteInfo) (s : AsepriteAnimation)
    (dt : Nat) (s2 : AsepriteAnimation) (c2 : Bool)
    (hlen : info.frame_infos.length = info.frame_count)
    (hfc : 0 < info.frame_count)
    (hdelay : ∀ f ∈ info.frame_infos, 0 < f.delay_ms)
    (hcf : s.current_frame < info.frame_count)
    (htag : ∀ n, s.tag = some n → ∃ t, lookupTag info n = some t ∧
      t.frames_start ≤ s.current_frame ∧ s.current_frame < t.frames_end ∧
      t.frames_end ≤ info.frame_count)
    (hupd : update info s dt = .ok s2 c2) :
    s2.current_frame < info.frame_count := by
  unfold update at hupd
  split at hupd
  · cases hupd
    rcases hstag : s.tag with _ | n
    · simp only [reset, hstag]
      omega
    · obtain ⟨t, hlook, hts, hte, hbound⟩ := htag n hstag
      cases hdir : t.animation_direction
      all_goals simp only [reset, hstag, hlook, hdir]
      all_goals omega
  · split at hupd
    · cases hupd
      exact hcf
    · have := updateLoop_ok_frame_lt info _ _ _ _ _ hupd
      omega

/-- C2 (witness): instantiating the invariant on the concrete 250 ms advance
over `clipWalk`. -/
theorem c2_update_frame_in_bounds_witness :
    ({ is_playing := true, tag := some "wk", current_frame := 4, forward := true
       time_elapsed := 50000000, tag_changed := false } :
        AsepriteAnimation).current_frame < clipWalk.frame_count :=
  c2_update_frame_in_bounds clipWalk sWalk 250000000 _ true
    (by decide) (by decide) (by decide) (by decide)
    (fun n hn => by
      injection hn with h
      subst h
      exact ⟨⟨2, 5, .Forward⟩, by decide, by decide, by decide, by decide⟩)
    (by decide)

/-- C3 (amended): while a resolvable tag with a well-formed range
(`start < end`, `u16` bounds) is selected, reset enters the range, and the
single-step and timed advances keep `current_frame` inside the range from any
in-range frame — for `Forward` and `Reverse` unconditionally, and for
`PingPong` provided the range holds at least two frames (`start + 1 < end`).
(Single-frame `PingPong` ranges escape, as the counterexample shows; that
restriction is the only change forced by it.) -/
theorem c3_tag_range_invariant (info : AsepriteInfo) (s : AsepriteAnimation)
    (n : String) (t : AsepriteTag)
    (htag : s.tag = some n) (hlook : lookupTag info n = some t)
    (hse : t.frames_start < t.frames_end) (hu16 : t.frames_end < 65536)
    (hpp : t.animation_direction = .PingPong → t.frames_start + 1 < t.frames_end) :
    (t.frames_start ≤ (reset info s).current_frame ∧
      (reset info s).current_frame < t.frames_end) ∧
    ((t.frames_start ≤ s.current_frame ∧ s.current_frame < t.frames_end) →
      t.frames_start ≤ (next_frame info s).current_frame ∧
        (next_frame info s).current_frame < t.frames_end) ∧
    (∀ (dt : Nat) (s2 : AsepriteAnimation) (c2 : Bool),
      (t.frames_start ≤ s.current_frame ∧ s.current_frame < t.frames_end) →
      update info s dt = .ok s2 c2 →
      t.frames_start ≤ s2.current_frame ∧ s2.current_frame < t.frames_end) := by
  have hreset : t.frames_start ≤ (reset info s).current_frame ∧
      (reset info s).current_frame < t.frames_end := by
    cases hdir : t.animation_direction
    all_goals simp only [reset, htag, hlook, hdir]
    all_goals omega
  refine ⟨hreset, ?_, ?_⟩
  · intro hin
    exact next_frame_in_range info s n t htag hlook hu16 hpp hin
  · intro dt s2 c2 hin hupd
    unfold update at hupd
    split at hupd
    · cases hupd
      exact hreset
    · split at hupd
      · cases hupd
        exact hin
      · exact updateLoop_in_range info n t hlook hu16 hpp (s.time_elapsed + dt + 1)
          { s with time_elapsed := s.time_elapsed + dt } false s2 c2 htag hin.1
          hin.2 hupd

/-- C3 (witness): instantiating the range invariant for the Forward tag
`[2,5)` of `clipWalk`. -/
theorem c3_tag_range_invariant_witness :
    2 ≤ (reset clipWalk sWalk).current_frame ∧
      (reset clipWalk sWalk).current_frame < 5 :=
  (c3_tag_range_invariant clipWalk sWalk "wk" ⟨2, 5, .Forward⟩ (by decide)
    (by decide) (by decide) (by decide) (by decide)).1

/-- C4 (amended): with an unknown selected tag (`tag_changed` false,
playing, current frame a valid index with positive delay), the timed advance
returns normally (no panic), never moves `current_frame` (nor any field other
than `time_elapsed`), sets `time_elapsed` to `(time_elapsed + dt)` reduced
modulo the current frame's duration, and reports a "change" exactly when at
least one whole duration was drained; the single-step advance and reset are
exact no-ops.  (The original claim's "`time_elapsed` unchanged" is dropped —
that is the only change forced by the counterexample.) -/
theorem c4_unknown_tag_behavior (info : AsepriteInfo) (s : AsepriteAnimation)
    (n : String) (f : FrameInfo) (dt : Nat)
    (htag : s.tag = some n) (hmiss : lookupTag info n = none)
    (htc : s.tag_changed = false) (hplay : s.is_playing = true)
    (hf : info.frame_infos.get? s.current_frame = some f)
    (hpos : 0 < f.delay_ms) :
    update info s dt =
      .ok { s with time_elapsed :=
              (s.time_elapsed + dt) % durationFromMillis f.delay_ms }
        (decide (durationFromMillis f.delay_ms ≤ s.time_elapsed + dt)) ∧
    next_frame info s = s ∧
    reset info s = s := by
  refine ⟨?_, next_frame_unknown_tag info s n htag hmiss, ?_⟩
  · unfold update
    rw [if_neg (by rw [htc]; exact Bool.false_ne_true)]
    rw [if_neg (by show ¬ (is_paused s = true); simp [is_paused, hplay])]
    rw [updateLoop_unknown_tag info n f hmiss hpos
      (s.time_elapsed + dt + 1) { s with time_elapsed := s.time_elapsed + dt }
      false htag hf
      (by show s.time_elapsed + dt < s.time_elapsed + dt + 1; omega)]
    rfl
  · simp only [reset, htag, hmiss]
    cases s
    dsimp only at htag htc ⊢
    rw [htc, htag]

/-- C4 (witness): the unknown-tag advance on `clipM` with `dt = 150 ms`
drains one whole 100 ms duration, leaves the frame at 0, keeps 50 ms of
residue, and reports a change; step and reset are no-ops. -/
theorem c4_unknown_tag_behavior_witness :
    update clipM sM 150000000 = .ok { sM with time_elapsed := 50000000 } true ∧
    next_frame clipM sM = sM ∧
    reset clipM sM = sM :=
  c4_unknown_tag_behavior clipM sM "miss" ⟨100⟩ 150000000 (by decide) (by decide)
    (by decide) (by decide) (by decide) (by decide)

/-- C5: with no pending tag change and `time_elapsed` below the current
frame's duration (the post-advance invariant), a timed advance with `dt = 0`
returns `false` and leaves every field unchanged; with a pending tag change
the call resets and returns `true` whatever `dt` is. -/
theorem c5_zero_dt_idempotent (info : AsepriteInfo) (s : AsepriteAnimation)
    (dt : Nat) (f : FrameInfo) :
    (s.tag_changed = false →
      info.frame_infos.get? s.current_frame = some f →
      s.time_elapsed < durationFromMillis f.delay_ms →
      update info s 0 = .ok s false) ∧
    (s.tag_changed = true → update info s dt = .ok (reset info s) true) := by
  constructor
  · intro htc hf hlt
    unfold update
    rw [if_neg (by rw [htc]; exact Bool.false_ne_true)]
    by_cases hp : is_paused s = true
    · rw [if_pos hp]
    · rw [if_neg hp]
      have hd : current_frame_duration info
          { s with time_elapsed := s.time_elapsed + 0 } =
          some (durationFromMillis f.delay_ms) := by
        show (info.frame_infos.get? s.current_frame).map
          (fun f => durationFromMillis f.delay_ms) = _
        rw [hf]
        rfl
      unfold updateLoop
      rw [hd]
      dsimp only
      rw [if_neg (by show ¬ (durationFromMillis f.delay_ms ≤ s.time_elapsed + 0); omega)]
      rfl
  · intro htc
    unfold update
    rw [if_pos htc]

/-- C5 (witness): a `dt = 0` advance on `clipWalk` really is the identity and
reports no change. -/
theorem c5_zero_dt_idempotent_witness :
    update clipWalk sWalk 0 = .ok sWalk false :=
  (c5_zero_dt_idempotent clipWalk sWalk 0 ⟨100⟩).1 (by decide) (by decide)
    (by decide)

/-- A copy of `sWalk` with a pending tag change, as produced by constructing
the animation from a tag name. -/
def sWalkNew : AsepriteAnimation :=
  { is_playing := true, tag := some "wk", current_frame := 0, forward := false
    time_elapsed := 0, tag_changed := true }

/-- C6: with a pending tag change the timed advance resets and returns
`true` for every `dt`: `time_elapsed` is untouched (no `dt` added, nothing
drained), `tag_changed` is cleared, and `current_frame`/`forward` go to the
active range's entry point — `range.start` going forward for `Forward` and
`PingPong`, `range.end - 1` going backward for `Reverse`, frame 0 going
forward with no tag. -/
theorem c6_tag_switch_reset (info : AsepriteInfo) (s : AsepriteAnimation)
    (dt : Nat) (htc : s.tag_changed = true) :
    update info s dt = .ok (reset info s) true ∧
    (reset info s).time_elapsed = s.time_elapsed ∧
    (reset info s).tag_changed = false ∧
    (s.tag = none →
      (reset info s).current_frame = 0 ∧ (reset info s).forward = true) ∧
    (∀ (n : String) (t : AsepriteTag), s.tag = some n → lookupTag info n = some t →
      (((t.animation_direction = .Forward ∨ t.animation_direction = .PingPong) →
        (reset info s).current_frame = t.frames_start ∧
          (reset info s).forward = true) ∧
       (t.animation_direction = .Reverse →
        (reset info s).current_frame = t.frames_end - 1 ∧
          (reset info s).forward = false))) := by
  obtain ⟨cf, fwd, hshape⟩ := reset_shape info s
  refine ⟨?_, ?_, ?_, ?_, ?_⟩
  · unfold update
    rw [if_pos htc]
  · rw [hshape]
  · rw [hshape]
  · intro hnone
    simp only [reset, hnone]
    exact ⟨trivial, trivial⟩
  · intro n t hn hl
    constructor
    · intro hdir
      rcases hdir with hdir | hdir <;> simp only [reset, hn, hl, hdir] <;>
        exact ⟨trivial, trivial⟩
    · intro hdir
      simp only [reset, hn, hl, hdir]
      exact ⟨trivial, trivial⟩

/-- C6 (witness): the first advance after selecting the `"wk"` tag resets to
its entry frame and reports a change. -/
theorem c6_tag_switch_reset_witness :
    update clipWalk sWalkNew 123456789 = .ok (reset clipWalk sWalkNew) true :=
  (c6_tag_switch_reset clipWalk sWalkNew 123456789 (by decide)).1

/-- C7: `last_frame_finished` (a pure query) returns `true` exactly when a
tag is selected, resolvable, the current frame is the last of the tag's range
(`end - 1`), and `time_elapsed + dt` reaches that frame's duration; with no
selected tag it returns `false` (after a logged warning in the Rust code). -/
theorem c7_last_frame_finished_iff (info : AsepriteInfo)
    (s : AsepriteAnimation) (dt : Nat) :
    (last_frame_finished info s dt = some true ↔
      ∃ (n : String) (t : AsepriteTag) (f : FrameInfo),
        s.tag = some n ∧ lookupTag info n = some t ∧
        info.frame_infos.get? s.current_frame = some f ∧
        s.current_frame = t.frames_end - 1 ∧
        durationFromMillis f.delay_ms ≤ s.time_elapsed + dt) ∧
    (s.tag = none → last_frame_finished info s dt = some false) := by
  constructor
  · rcases hstag : s.tag with _ | n
    · simp [last_frame_finished, hstag]
    · rcases hlook : lookupTag info n with _ | t
      · simp [last_frame_finished, hstag, hlook]
      · rcases hd : info.frame_infos.get? s.current_frame with _ | f
        · have hcd : current_frame_duration info s = none := by
            unfold current_frame_duration
            rw [hd]
            rfl
          simp [last_frame_finished, hstag, hlook, hcd, hd]
        · have hcd : current_frame_duration info s =
              some (durationFromMillis f.delay_ms) := by
            unfold current_frame_duration
            rw [hd]
            rfl
          simp [last_frame_finished, hstag, hlook, hcd, hd]
  · intro hnone
    simp [last_frame_finished, hnone]

/-- C7 (witness): on `clipWalk` at the last tagged frame with a full duration
of accumulated-plus-incoming time, the completion query answers `true`. -/
theorem c7_last_frame_finished_iff_witness :
    last_frame_finished clipWalk
      { is_playing := true, tag := some "wk", current_frame := 4
        forward := true, time_elapsed := 40000000, tag_changed := false }
      60000000 = some true :=
  ((c7_last_frame_finished_iff clipWalk
      { is_playing := true, tag := some "wk", current_frame := 4
        forward := true, time_elapsed := 40000000, tag_changed := false }
      60000000).1).mpr
    ⟨"wk", ⟨2, 5, .Forward⟩, ⟨100⟩, by decide, by decide, by decide, by decide,
      by decide⟩

/-- C9: with a resolvable `Reverse` tag and the current frame inside the
range (so inside `u16` bounds), the single-step advance decrements the frame
when the decremented value is still in range, and otherwise — including the
underflow case at frame 0 — wraps to `range.end - 1`; iterating therefore
cycles `end-1, …, start, end-1, …`. -/
theorem c9_reverse_step (info : AsepriteInfo) (s : AsepriteAnimation)
    (n : String) (t : AsepriteTag)
    (htag : s.tag = some n) (hlook : lookupTag info n = some t)
    (hdir : t.animation_direction = .Reverse)
    (hl : t.frames_start ≤ s.current_frame) (hr : s.current_frame < t.frames_end)
    (hu16 : t.frames_end < 65536) :
    ((1 ≤ s.current_frame ∧ t.frames_start ≤ s.current_frame - 1) →
      next_frame info s = { s with current_frame := s.current_frame - 1 }) ∧
    ((s.current_frame = 0 ∨ s.current_frame - 1 < t.frames_start) →
      next_frame info s = { s with current_frame := t.frames_end - 1 }) := by
  constructor
  · rintro ⟨h1, h2⟩
    simp only [next_frame, htag, hlook, hdir]
    rw [if_neg (by omega)]
    rw [if_pos (by constructor <;> omega)]
  · intro hcase
    simp only [next_frame, htag, hlook, hdir]
    by_cases h0 : s.current_frame = 0
    · rw [if_pos h0]
    · rw [if_neg h0]
      rw [if_neg (by omega)]

/-- C9 (witness): on the Reverse tag `[2,5)` at frame 4 the single step
decrements to frame 3. -/
theorem c9_reverse_step_witness :
    next_frame clipRev sRev = { sRev with current_frame := 3 } :=
  (c9_reverse_step clipRev sRev "rv" ⟨2, 5, .Reverse⟩ (by decide) (by decide)
    (by decide) (by decide) (by decide) (by decide)).1 (by decide)

/-- C10: whenever every frame delay of the clip is positive, the drain loop
of the timed advance terminates — the fuel `time_elapsed + dt + 1` supplied
by `update` is never exhausted, because each iteration removes a whole
positive frame duration from `time_elapsed`; and on a clip with a reachable
zero-delay frame no amount of fuel makes the loop finish (it runs forever in
the Rust code). -/
theorem c10_update_terminates :
    (∀ (info : AsepriteInfo) (s : AsepriteAnimation) (dt : Nat),
      (∀ f ∈ info.frame_infos, 0 < f.delay_ms) →
      update info s dt ≠ .fuelOut) ∧
    (∀ (fuel : Nat) (c : Bool), updateLoop clipZero fuel sZero c = .fuelOut) := by
  constructor
  · intro info s dt hpos
    unfold update
    split
    · simp
    · split
      · simp
      · exact updateLoop_no_fuelOut info hpos _ _ _
          (by show s.time_elapsed + dt < s.time_elapsed + dt + 1; omega)
  · intro fuel
    induction fuel with
    | zero => intro c; rfl
    | succ fuel ih =>
      intro c
      exact ih true

/-- C10 (witness): the positive-delay half applied to the concrete 250 ms
advance over `clipWalk`. -/
theorem c10_update_terminates_witness :
    update clipWalk sWalk 250000000 ≠ UpdateResult.fuelOut :=
  c10_update_terminates.1 clipWalk sWalk 250000000 (by decide)
